import Mathlib

/-!
Wirestorm TCP relay: verification of the spec against `src/main.rs`.

Shallow embedding of the relay's three pure cores:

* `verify_checksum` — the one's-complement checksum verifier
  (`src/main.rs` lines 106–131), with bytes modelled as `Nat` values
  (< 256 on real wires) and the Rust `u32` accumulator modelled as a
  `Nat` that is folded back below 2^16 after every addition, exactly as
  the source's inner `while` loop does.
* `drainLoop` — the frame-decoder drain loop inside `handle_source`
  (`src/main.rs` lines 49–99): resynchronise on the magic byte `0xCC`,
  parse the 8-byte header, extract complete `8 + length` frames, drop a
  sensitive frame whose checksum fails (and `break` out of the pass),
  and report the dispatched frames together with the retained buffer.
* the broadcast pass over the destination registry
  (`src/main.rs` lines 83–93): attempt a write to every destination,
  collect the indices of failed writes, and remove them in reverse order.
* `handle_source` / `driverRun` — the session read loop and the driver
  loop of `main` (`src/main.rs` lines 30–33 and 41–45), with a session's
  reads modelled as a finite schedule of read results (an I/O error, or a
  chunk of bytes where the empty chunk is the orderly zero-length read).
-/

namespace Wirestorm

/-- The end-around-carry fold of the Rust inner loop
`while sum > 0xFFFF { sum = (sum & 0xFFFF) + (sum >> 16); }`
(`src/main.rs` lines 122–124). `sum & 0xFFFF` is `sum % 2^16` and
`sum >> 16` is `sum / 2^16`. -/
def foldCarry (sum : Nat) : Nat :=
  if sum > 0xFFFF then foldCarry (sum % 0x10000 + sum / 0x10000) else sum
termination_by sum
decreasing_by
  rename_i h
  omega

/-- The word-accumulation loop of `verify_checksum`
(`src/main.rs` lines 110–127): walk the message two bytes at a time from
index 0; at index 4 substitute the fixed word `0xCCCC` for the two
checksum-field bytes; otherwise take the big-endian word
`(high_byte << 8) | low_byte`, zero-padding the low byte when the index
is the last byte of an odd-length message; add each word to the running
sum and fold the carry after every addition. -/
def checksumGo (message : List Nat) (i : Nat) (sum : Nat) : Nat :=
  if _h : i < message.length then
    let word :=
      if i = 4 then 0xCCCC
      else
        let high_byte := message.getD i 0
        let low_byte := if i + 1 < message.length then message.getD (i + 1) 0 else 0
        high_byte * 256 + low_byte
    checksumGo message (i + 2) (foldCarry (sum + word))
  else sum
termination_by message.length - i

/-- Embedding of `verify_checksum`, `src/main.rs` lines 106–131: accumulate the
message's 16-bit words (with the offset-4 substitution), truncate the
final sum to 16 bits (`sum as u16`), take its bitwise one's complement
(`!`, i.e. `0xFFFF - ·` for a value below 2^16), and compare with the
stated checksum. -/
def verify_checksum (message : List Nat) (checksum : Nat) : Bool :=
  let sum := checksumGo message 0 0
  (0xFFFF - sum % 0x10000) == checksum

/-! ## The frame decoder (the drain loop of `handle_source`) -/

/-- The parsed payload length,
`u16::from_be_bytes([buffer[2], buffer[3]]) as usize`
(`src/main.rs` lines 61–62): header bytes 2–3, big-endian. -/
def parsedLen (buf : List Nat) : Nat :=
  buf.getD 2 0 * 256 + buf.getD 3 0

/-- The parsed stated checksum,
`u16::from_be_bytes([buffer[4], buffer[5]])`
(`src/main.rs` lines 67–68): header bytes 4–5, big-endian. -/
def parsedCk (buf : List Nat) : Nat :=
  buf.getD 4 0 * 256 + buf.getD 5 0

/-- The sensitive/checksummed flag, `(options >> 6) & 1` with
`options = buffer[1]` (`src/main.rs` lines 64–65): bit 6 of the
options byte. -/
def sensitiveBit (buf : List Nat) : Nat :=
  buf.getD 1 0 / 64 % 2

/-- The inner drain loop of `handle_source` (`src/main.rs` lines 49–99),
run once over the current buffer after a read. Returns the list of
frames handed to the broadcast step (in order) and the buffer retained
for the next read:

* no magic byte `0xCC` anywhere — `buffer.clear()` and stop;
* otherwise drop the bytes before the first magic byte (`drain(..pos)`;
  the source skips the call when `pos == 0`, which is the same drop);
* fewer than 8 bytes from the marker — stop, keeping the buffer;
* fewer than `8 + length` bytes — stop, keeping the buffer;
* otherwise `drain(..8 + length)` the complete frame; if the sensitive
  bit is set and the checksum fails, drop the frame and `break` out of
  the pass; else dispatch it and loop on the remaining buffer. -/
def drainLoop (buffer : List Nat) : List (List Nat) × List Nat :=
  match buffer.findIdx? (fun b => b == 0xCC) with
  | none => ([], [])
  | some pos =>
    let buf := buffer.drop pos
    if buf.length < 8 then ([], buf)
    else
      let length := parsedLen buf
      let checksum := parsedCk buf
      if buf.length < 8 + length then ([], buf)
      else
        let message := buf.take (8 + length)
        let rest := buf.drop (8 + length)
        if sensitiveBit message = 1 ∧ verify_checksum message checksum = false then
          ([], rest)
        else
          let r := drainLoop rest
          (message :: r.1, r.2)
termination_by buffer.length
decreasing_by
  simp only [buf, rest, List.length_drop] at *
  omega

/-! ## Spec-side checksum definitions

These follow the words of spec §4.1 (and are compared with the
source-derived `verify_checksum` in the C3 refinement theorem). -/

/-- Spec §4.1 steps 1 and 3, in the spec's words: the message walked as
2-byte big-endian words from offset 0, a final odd-length word's low
byte treated as 0. -/
def beWords : List Nat → List Nat
  | [] => []
  | [b] => [b * 256]
  | b1 :: b2 :: rest => (b1 * 256 + b2) :: beWords rest

/-- Spec §4.1 step 2, in the spec's words: the word at byte offset 4
(word index 2) is substituted by the fixed placeholder `0xCCCC`; when
the message has no byte at offset 4 the substitution does not apply
(`List.set` out of range is the identity). -/
def specWords (m : List Nat) : List Nat :=
  (beWords m).set 2 0xCCCC

/-- Spec §4.1 step 4, in the spec's words: accumulate all words into a
running sum, folding any carry beyond 16 bits back in after each
addition (end-around carry). -/
def onesCompSum (ws : List Nat) : Nat :=
  ws.foldl (fun s w => foldCarry (s + w)) 0

/-- Spec §4.1 steps 5–6, in the spec's words: the computed checksum is
the bitwise one's complement of the final 16-bit sum, and verification
succeeds iff it equals the stated checksum. -/
def spec_verify (m : List Nat) (ck : Nat) : Bool :=
  (0xFFFF - onesCompSum (specWords m)) == ck

/-! ## Frames -/

/-- The sender-side checksum of a message: the one's complement of the
accumulated sum, exactly the value `verify_checksum` compares the stated
checksum with (`src/main.rs` line 129). -/
def compute_checksum (message : List Nat) : Nat :=
  0xFFFF - (checksumGo message 0 0) % 0x10000

/-- Modelled from the spec: no sender lives in this repository, so a
frame is built from the wire format of spec §6 — magic `0xCC`, options
byte, big-endian 16-bit payload length, big-endian 16-bit checksum
field, two reserved bytes, then the payload. -/
def mkFrame (options ck r1 r2 : Nat) (payload : List Nat) : List Nat :=
  0xCC :: options :: (payload.length / 256) :: (payload.length % 256) ::
    (ck / 256) :: (ck % 256) :: r1 :: r2 :: payload

/-- A well-formed complete frame as decoded by the drain loop: it starts
with the magic byte, its total size is exactly `8 + length` for the
length stated in its header, its bytes are bytes, and if its sensitive
bit is set its stated checksum verifies. -/
structure ValidFrame (f : List Nat) : Prop where
  head_magic : f.head? = some 0xCC
  len_eq : f.length = 8 + parsedLen f
  bytes_lt : ∀ b ∈ f, b < 256
  ck_ok : sensitiveBit f = 1 → verify_checksum f (parsedCk f) = true

/-! ## The broadcast pass (`src/main.rs` lines 81–93) -/

/-- The write loop's bookkeeping (`src/main.rs` lines 83–89): iterate
over the registry with indices (`iter_mut().enumerate()`), attempting a
write to each destination, and collect into `to_remove` the index of
every destination whose write fails. The per-destination outcome of
writing this frame is abstracted as `fails`. -/
def writeFailures (fails : α → Bool) : List α → Nat → List Nat
  | [], _ => []
  | d :: rest, i =>
    if fails d then i :: writeFailures fails rest (i + 1)
    else writeFailures fails rest (i + 1)

/-- The sequence of `write_all` calls the loop makes, each paired with
whether it failed: one attempted write per registered destination, in
registry order, with no early exit on failure. -/
def writeAttempts (fails : α → Bool) : List α → List (α × Bool)
  | [] => []
  | d :: rest => (d, fails d) :: writeAttempts fails rest

/-- The whole broadcast pass (`src/main.rs` lines 83–93): run the write
loop, then remove the failed indices from the registry in reverse order
(`to_remove.into_iter().rev()` with `Vec::remove`, i.e. `eraseIdx`),
returning the pruned registry. -/
def broadcastPass (fails : α → Bool) (list : List α) : List α :=
  let to_remove := writeFailures fails list 0
  to_remove.reverse.foldl (fun acc i => acc.eraseIdx i) list

/-! ## The session read loop and the relay driver -/

/-- One result of `source_stream.read(&mut read_buffer)`: an I/O error,
or a chunk of bytes where the empty chunk is the orderly zero-length
read signalling disconnect. -/
inductive ReadResult where
  | ioError : ReadResult
  | chunk : List Nat → ReadResult

/-- The read loop of `handle_source` (`src/main.rs` lines 41–100) over a
finite schedule of reads: an I/O error propagates (`read(...)?` makes
`handle_source` return `Err`), a zero-length read breaks the loop and
returns `Ok`, and any other chunk is appended to the buffer and drained,
accumulating the dispatched frames. An exhausted schedule models a
source that is still connected but silent; the session is then still in
its `Ok` state. -/
def handle_source : List ReadResult → List Nat → List (List Nat) →
    Except Unit (List (List Nat))
  | [], _, out => Except.ok out
  | ReadResult.ioError :: _, _, _ => Except.error ()
  | ReadResult.chunk c :: rs, buffer, out =>
    if c.length = 0 then Except.ok out
    else
      let r := drainLoop (buffer ++ c)
      handle_source rs r.2 (out ++ r.1)

/-- The driver loop of `main` (`src/main.rs` lines 30–33) over a finite
schedule of accepted source sessions, each given by its read schedule:
`handle_source(source_stream, &destinations)?` — an `Err` from the
session handler is propagated by the `?` operator and ends the loop
(and the process); an `Ok` lets the loop accept the next source. The
result collects each served session's dispatched frames. -/
def driverRun : List (List ReadResult) → Except Unit (List (List (List Nat)))
  | [] => Except.ok []
  | s :: rest =>
    match handle_source s [] [] with
    | Except.error e => Except.error e
    | Except.ok msgs => Except.map (fun others => msgs :: others) (driverRun rest)

/-! ## Theorems -/

-- Quick sanity checks of the embedding on tiny concrete inputs.
example : verify_checksum [] 0xFFFF = true := by
  simp [verify_checksum, checksumGo]

example : foldCarry 0x1990C = 0x990D := by
  simp [foldCarry]

/-! ### Header-parsing helpers: the parsed fields only look at the first
bytes, so they are stable under appending a suffix or truncating after
the header. -/

theorem getD_append_left (l r : List Nat) (i : Nat) (h : i < l.length) :
    (l ++ r).getD i 0 = l.getD i 0 := by
  simp [List.getD_eq_getElem?_getD, List.getElem?_append_left h]

theorem getD_take (l : List Nat) (k i : Nat) (h : i < k) :
    (l.take k).getD i 0 = l.getD i 0 := by
  simp [List.getD_eq_getElem?_getD, List.getElem?_take_of_lt h]

theorem parsedLen_append (f rest : List Nat) (h : 4 ≤ f.length) :
    parsedLen (f ++ rest) = parsedLen f := by
  unfold parsedLen
  rw [getD_append_left _ _ _ (by omega), getD_append_left _ _ _ (by omega)]

theorem parsedCk_append (f rest : List Nat) (h : 6 ≤ f.length) :
    parsedCk (f ++ rest) = parsedCk f := by
  unfold parsedCk
  rw [getD_append_left _ _ _ (by omega), getD_append_left _ _ _ (by omega)]

theorem sensitiveBit_append (f rest : List Nat) (h : 2 ≤ f.length) :
    sensitiveBit (f ++ rest) = sensitiveBit f := by
  unfold sensitiveBit
  rw [getD_append_left _ _ _ (by omega)]

theorem parsedLen_take (f : List Nat) (k : Nat) (h : 4 ≤ k) :
    parsedLen (f.take k) = parsedLen f := by
  unfold parsedLen
  rw [getD_take _ _ _ (by omega), getD_take _ _ _ (by omega)]

/-! ### Characterizations of one drain pass -/

theorem drainLoop_nil : drainLoop [] = ([], []) := by simp [drainLoop]

/-- If no magic byte occurs in the buffer, the pass clears the buffer
and dispatches nothing (`buffer.clear()` branch, `src/main.rs` 94–97). -/
theorem drainLoop_no_magic (buffer : List Nat) (h : ∀ b ∈ buffer, b ≠ 0xCC) :
    drainLoop buffer = ([], []) := by
  have hidx : buffer.findIdx? (fun b => b == 0xCC) = none := by
    rw [List.findIdx?_eq_none_iff]
    intro x hx
    simpa using h x hx
  rw [drainLoop]
  simp [hidx]

/-- One drain step on a buffer that starts with a complete frame: the
frame's `8 + length` bytes are drained off; if it is sensitive and its
checksum fails, the pass stops there with the rest of the buffer kept;
otherwise the frame is dispatched and the pass continues on the rest. -/
theorem drainLoop_step (f rest : List Nat) (hmagic : f.head? = some 0xCC)
    (hlen : f.length = 8 + parsedLen f) :
    drainLoop (f ++ rest) =
      if sensitiveBit f = 1 ∧ verify_checksum f (parsedCk f) = false then ([], rest)
      else (f :: (drainLoop rest).1, (drainLoop rest).2) := by
  match f, hmagic with
  | 0xCC :: t, _ =>
    have hflen : 8 ≤ (0xCC :: t).length := by omega
    have hidx : ((0xCC :: t) ++ rest).findIdx? (fun b => b == 0xCC) = some 0 := by
      simp [List.findIdx?_cons]
    rw [drainLoop]
    rw [hidx]
    simp only [List.drop_zero]
    rw [parsedLen_append _ _ (by omega), parsedCk_append _ _ (by omega)]
    rw [List.take_left' hlen, List.drop_left' hlen]
    have hnotshort : ¬ ((0xCC :: t) ++ rest).length < 8 := by
      simp only [List.length_append]
      omega
    have hnotpartial : ¬ ((0xCC :: t) ++ rest).length < 8 + parsedLen (0xCC :: t) := by
      simp only [List.length_append]
      omega
    rw [if_neg hnotshort, if_neg hnotpartial]

/-- A buffer whose first byte is the magic byte but which is shorter
than the complete frame its header announces is left untouched by the
pass: both partial-header and partial-payload stops keep the buffer. -/
theorem drainLoop_stall (buf : List Nat) (hmagic : buf.head? = some 0xCC)
    (hpart : buf.length < 8 + parsedLen buf) :
    drainLoop buf = ([], buf) := by
  match buf, hmagic with
  | 0xCC :: t, _ =>
    have hidx : (0xCC :: t).findIdx? (fun b => b == 0xCC) = some 0 := by
      simp [List.findIdx?_cons]
    rw [drainLoop, hidx]
    simp only [List.drop_zero]
    by_cases h8 : (0xCC :: t).length < 8
    · rw [if_pos h8]
    · rw [if_neg h8, if_pos hpart]

/-- A nonempty strict prefix of a complete frame stalls the pass and is
kept whole: the split-boundary workhorse. -/
theorem drainLoop_take_stall (f : List Nat) (k : Nat) (hmagic : f.head? = some 0xCC)
    (hlen : f.length = 8 + parsedLen f) (hk0 : 0 < k) (hklt : k < f.length) :
    drainLoop (f.take k) = ([], f.take k) := by
  have hkl : (f.take k).length = k := by
    rw [List.length_take]
    omega
  apply drainLoop_stall
  · match f, hmagic, k, hk0 with
    | 0xCC :: t, _, k + 1, _ => simp [List.take_succ_cons]
  · by_cases h4 : 4 ≤ k
    · rw [parsedLen_take _ _ h4]
      omega
    · have : 0 ≤ parsedLen (f.take k) := Nat.zero_le _
      omega

/-- A valid frame at the head of the buffer is always dispatched and
drained: the invalid-checksum branch cannot fire. -/
theorem drainLoop_emit (f rest : List Nat) (hf : ValidFrame f) :
    drainLoop (f ++ rest) = (f :: (drainLoop rest).1, (drainLoop rest).2) := by
  rw [drainLoop_step f rest hf.head_magic hf.len_eq]
  rw [if_neg]
  rintro ⟨hs, hv⟩
  rw [hf.ck_ok hs] at hv
  exact Bool.noConfusion hv

-- Sanity: an empty or garbage-only buffer is cleared with no frames.
example : drainLoop [] = ([], []) := by simp [drainLoop]
example : drainLoop [1, 2, 3] = ([], []) := by simp [drainLoop]
-- Sanity: a lone non-sensitive empty-payload frame is dispatched whole.
example : drainLoop [0xCC, 0, 0, 0, 0, 0, 0, 0] =
    ([[0xCC, 0, 0, 0, 0, 0, 0, 0]], []) := by
  simp [drainLoop, parsedLen, parsedCk, sensitiveBit]

/-! ### The checksum loop computes the spec's word-list sum -/

theorem foldCarry_le (s : Nat) : foldCarry s ≤ 0xFFFF := by
  induction s using foldCarry.induct with
  | case1 s h ih =>
    rw [foldCarry, if_pos h]
    exact ih
  | case2 s h =>
    rw [foldCarry, if_neg h]
    omega

/-- Unfolding of one accumulation step away from the substituted
index. -/
theorem checksumGo_step_ne4 (m : List Nat) (i s : Nat) (h : i < m.length)
    (h4 : i ≠ 4) :
    checksumGo m i s =
      checksumGo m (i + 2)
        (foldCarry (s + (m.getD i 0 * 256 +
          (if i + 1 < m.length then m.getD (i + 1) 0 else 0)))) := by
  rw [checksumGo]
  simp [h, h4]

/-- Unfolding of the accumulation step at byte offset 4: the word is the
placeholder `0xCCCC` and the actual bytes at offsets 4 and 5 are never
read. -/
theorem checksumGo_step_at4 (m : List Nat) (s : Nat) (h : 4 < m.length) :
    checksumGo m 4 s = checksumGo m 6 (foldCarry (s + 0xCCCC)) := by
  rw [checksumGo]
  simp [h]

theorem checksumGo_stop (m : List Nat) (i s : Nat) (h : ¬ i < m.length) :
    checksumGo m i s = s := by
  rw [checksumGo]
  simp [h]

theorem drop_eq_getD_cons (m : List Nat) (i : Nat) (h : i < m.length) :
    m.drop i = m.getD i 0 :: m.drop (i + 1) := by
  rw [List.drop_eq_getElem_cons h]
  congr 1
  simp [List.getD_eq_getElem?_getD, List.getElem?_eq_getElem h]

theorem checksumGo_ge5_aux (m : List Nat) (n : Nat) : ∀ i s, m.length ≤ i + n →
    5 ≤ i →
    checksumGo m i s =
      (beWords (m.drop i)).foldl (fun a w => foldCarry (a + w)) s := by
  induction n with
  | zero =>
    intro i s hn _h5
    rw [checksumGo_stop m i s (by omega), List.drop_eq_nil_of_le (by omega), beWords]
    simp
  | succ n IH =>
    intro i s hn h5
    by_cases hlt : i < m.length
    · rw [checksumGo_step_ne4 m i s hlt (by omega)]
      rw [IH (i + 2) _ (by omega) (by omega)]
      by_cases hi1 : i + 1 < m.length
      · rw [if_pos hi1]
        rw [drop_eq_getD_cons m i hlt, drop_eq_getD_cons m (i + 1) hi1, beWords,
          List.foldl_cons]
      · rw [if_neg hi1]
        rw [drop_eq_getD_cons m i hlt,
          (show m.drop (i + 1) = [] from List.drop_eq_nil_of_le (by omega)),
          (show m.drop (i + 2) = [] from List.drop_eq_nil_of_le (by omega))]
        simp [beWords]
    · rw [checksumGo_stop m i s hlt, List.drop_eq_nil_of_le (by omega), beWords]
      simp

/-- Past the checksum field (indices ≥ 5, in fact ≥ 6 in every run), the
loop is the plain big-endian word fold over the remaining suffix. -/
theorem checksumGo_ge5 (m : List Nat) (i s : Nat) (h5 : 5 ≤ i) :
    checksumGo m i s =
      (beWords (m.drop i)).foldl (fun a w => foldCarry (a + w)) s :=
  checksumGo_ge5_aux m m.length i s (by omega) h5

/-- The source's accumulation loop computes exactly the end-around-carry
fold of the spec's word list (big-endian words, offset-4 word replaced
by the placeholder, odd tail zero-padded). -/
theorem checksumGo_eq_specWords (m : List Nat) :
    checksumGo m 0 0 = onesCompSum (specWords m) := by
  match m with
  | [] =>
    rw [checksumGo_stop _ _ _ (by simp)]
    simp [specWords, beWords, onesCompSum]
  | [a] =>
    rw [checksumGo_step_ne4 _ 0 _ (by simp) (by omega),
      checksumGo_stop _ _ _ (by simp)]
    simp [specWords, beWords, onesCompSum]
  | [a, b] =>
    rw [checksumGo_step_ne4 _ 0 _ (by simp) (by omega),
      checksumGo_stop _ _ _ (by simp)]
    simp [specWords, beWords, onesCompSum]
  | [a, b, c] =>
    rw [checksumGo_step_ne4 _ 0 _ (by simp) (by omega),
      checksumGo_step_ne4 _ 2 _ (by simp) (by omega),
      checksumGo_stop _ _ _ (by simp)]
    simp [specWords, beWords, onesCompSum]
  | [a, b, c, d] =>
    rw [checksumGo_step_ne4 _ 0 _ (by simp) (by omega),
      checksumGo_step_ne4 _ 2 _ (by simp) (by omega),
      checksumGo_stop _ _ _ (by simp)]
    simp [specWords, beWords, onesCompSum]
  | [a, b, c, d, e] =>
    rw [checksumGo_step_ne4 _ 0 _ (by simp) (by omega),
      checksumGo_step_ne4 _ 2 _ (by simp) (by omega),
      checksumGo_step_at4 _ _ (by simp),
      checksumGo_stop _ _ _ (by simp)]
    simp [specWords, beWords, onesCompSum]
  | a :: b :: c :: d :: e :: x :: rest =>
    rw [checksumGo_step_ne4 _ 0 _ (by simp) (by omega),
      checksumGo_step_ne4 _ 2 _ (by simp) (by omega),
      checksumGo_step_at4 _ _ (by simp),
      checksumGo_ge5 _ 6 _ (by omega)]
    simp [specWords, beWords, onesCompSum]

theorem foldl_foldCarry_le (ws : List Nat) : ∀ s, s ≤ 0xFFFF →
    ws.foldl (fun a w => foldCarry (a + w)) s ≤ 0xFFFF := by
  induction ws with
  | nil =>
    intro s hs
    simpa using hs
  | cons w ws IH =>
    intro s _hs
    rw [List.foldl_cons]
    exact IH _ (foldCarry_le _)

theorem onesCompSum_le (ws : List Nat) : onesCompSum ws ≤ 0xFFFF :=
  foldl_foldCarry_le ws 0 (by omega)

/-- On any list with at least six leading bytes, the checksum loop's
value never reads bytes 4 and 5: the first two words are summed, the
placeholder is summed for the offset-4 word, and the loop continues at
offset 6. -/
theorem checksumGo_cons6 (a b c d e x : Nat) (rest : List Nat) :
    checksumGo (a :: b :: c :: d :: e :: x :: rest) 0 0 =
      (beWords rest).foldl (fun s w => foldCarry (s + w))
        (foldCarry (foldCarry (foldCarry (0 + (a * 256 + b)) + (c * 256 + d)) +
          0xCCCC)) := by
  rw [checksumGo_step_ne4 _ 0 _ (by simp) (by omega),
    checksumGo_step_ne4 _ 2 _ (by simp) (by omega),
    checksumGo_step_at4 _ _ (by simp),
    checksumGo_ge5 _ 6 _ (by omega)]
  simp

/-- The computed checksum of a built frame does not depend on what is in
its checksum field. -/
theorem compute_checksum_mkFrame_indep (options ck ck' r1 r2 : Nat)
    (payload : List Nat) :
    compute_checksum (mkFrame options ck r1 r2 payload) =
      compute_checksum (mkFrame options ck' r1 r2 payload) := by
  unfold compute_checksum mkFrame
  rw [checksumGo_cons6, checksumGo_cons6]

/-! ### Claim theorems: checksum -/

/-- C3: for every message and stated checksum, `verify_checksum`
computes the one's-complement (end-around-carry) sum of the message read
as 16-bit big-endian words from offset 0, substituting the fixed value
`0xCCCC` for the word at byte offset 4 and zero-padding the low byte of
a final odd-length word, takes the bitwise one's complement of the
folded 16-bit sum, and returns true iff that computed value equals the
stated checksum. -/
theorem claim_C3_verify_checksum_is_spec_sum (message : List Nat) (checksum : Nat) :
    verify_checksum message checksum = spec_verify message checksum := by
  unfold verify_checksum spec_verify
  rw [checksumGo_eq_specWords]
  simp only [Nat.mod_eq_of_lt
    (show onesCompSum (specWords message) < 0x10000 by
      have := onesCompSum_le (specWords message); omega)]

/-- C4: for every payload, building the frame with its checksum field
set to the checksum computed over that frame (a computation which treats
the checksum field as the placeholder), then verifying that frame
against that stated checksum, returns true. -/
theorem claim_C4_checksum_roundtrip (options r1 r2 : Nat) (payload : List Nat)
    (_hbytes : ∀ b ∈ payload, b < 256) (_hlen : payload.length < 0x10000) :
    verify_checksum
      (mkFrame options
        (compute_checksum (mkFrame options 0xCCCC r1 r2 payload)) r1 r2 payload)
      (compute_checksum (mkFrame options 0xCCCC r1 r2 payload)) = true := by
  unfold verify_checksum
  have hind := compute_checksum_mkFrame_indep options
    (compute_checksum (mkFrame options 0xCCCC r1 r2 payload)) 0xCCCC r1 r2 payload
  unfold compute_checksum at hind
  have hle : checksumGo
      (mkFrame options
        (compute_checksum (mkFrame options 0xCCCC r1 r2 payload)) r1 r2 payload)
      0 0 % 0x10000 < 0x10000 := Nat.mod_lt _ (by omega)
  simp only [beq_iff_eq]
  unfold compute_checksum
  omega

theorem claim_C4_checksum_roundtrip_witness :
    (∀ b ∈ [0xAA, 0xBB, 0xCC], b < 256) ∧ ([0xAA, 0xBB, 0xCC] : List Nat).length < 0x10000 ∧
    verify_checksum
      (mkFrame 0x40
        (compute_checksum (mkFrame 0x40 0xCCCC 0 0 [0xAA, 0xBB, 0xCC])) 0 0
        [0xAA, 0xBB, 0xCC])
      (compute_checksum (mkFrame 0x40 0xCCCC 0 0 [0xAA, 0xBB, 0xCC])) = true :=
  ⟨by decide, by decide,
    claim_C4_checksum_roundtrip 0x40 0 0 [0xAA, 0xBB, 0xCC] (by decide) (by decide)⟩

/-! ### Claim theorems: frame decoder -/

/-- Resynchronisation: a pass over the buffer behaves exactly as a pass
over the suffix starting at the first magic byte. -/
theorem drainLoop_resync (buffer : List Nat) (pos : Nat)
    (hidx : buffer.findIdx? (fun b => b == 0xCC) = some pos) :
    drainLoop buffer = drainLoop (buffer.drop pos) := by
  obtain ⟨hlt, hp, -⟩ := List.findIdx?_eq_some_iff_getElem.1 hidx
  have hhead : (buffer.drop pos).findIdx? (fun b => b == 0xCC) = some 0 := by
    rw [List.drop_eq_getElem_cons hlt, List.findIdx?_cons, if_pos hp]
  conv_lhs => rw [drainLoop]
  conv_rhs => rw [drainLoop]
  rw [hidx, hhead]
  simp only [List.drop_zero]

theorem findIdx_magic_append (noise t : List Nat)
    (hnoise : ∀ b ∈ noise, b ≠ 0xCC) :
    (noise ++ 0xCC :: t).findIdx? (fun b => b == 0xCC) = some noise.length := by
  induction noise with
  | nil => simp [List.findIdx?_cons]
  | cons n ns IH =>
    have hn : (n == 0xCC) = false := by
      simpa using hnoise n (by simp)
    rw [List.cons_append, List.findIdx?_cons, if_neg (by simp [hn]),
      List.findIdx?_start_succ, IH (fun b hb => hnoise b (by simp [hb]))]
    simp

/-- C7: the decoder discards exactly the bytes preceding the first
occurrence of the magic byte `0xCC` — the whole buffer when no magic
byte is present — so a buffer of non-magic noise followed by one valid
frame decodes to exactly that frame and nothing else. -/
theorem claim_C7_resync_discards_before_magic (buffer noise f : List Nat)
    (hnoise : ∀ b ∈ noise, b ≠ 0xCC) (hf : ValidFrame f) :
    (drainLoop buffer =
      match buffer.findIdx? (fun b => b == 0xCC) with
      | none => ([], [])
      | some pos => drainLoop (buffer.drop pos))
    ∧ drainLoop (noise ++ f) = ([f], []) := by
  constructor
  · match hidx : buffer.findIdx? (fun b => b == 0xCC) with
    | none =>
      exact drainLoop_no_magic buffer (by
        intro b hb
        have := List.findIdx?_eq_none_iff.1 hidx b hb
        simpa using this)
    | some pos => exact drainLoop_resync buffer pos hidx
  · match f, hf.head_magic with
    | 0xCC :: t, _ =>
      rw [drainLoop_resync _ noise.length (findIdx_magic_append noise t hnoise),
        List.drop_left' rfl]
      have h := drainLoop_emit (0xCC :: t) [] hf
      rwa [List.append_nil, drainLoop_nil] at h

theorem claim_C7_resync_discards_before_magic_witness :
    (∀ b ∈ ([1, 2, 3] : List Nat), b ≠ 0xCC) ∧
    ValidFrame [0xCC, 0, 0, 1, 9, 9, 7, 7, 42] ∧
    drainLoop ([1, 2, 3] ++ [0xCC, 0, 0, 1, 9, 9, 7, 7, 42]) =
      ([[0xCC, 0, 0, 1, 9, 9, 7, 7, 42]], []) := by
  have hvf : ValidFrame [0xCC, 0, 0, 1, 9, 9, 7, 7, 42] := by
    refine ⟨by decide, by decide, by decide, ?_⟩
    intro h
    exact absurd h (by decide)
  exact ⟨by decide, hvf,
    (claim_C7_resync_discards_before_magic [] [1, 2, 3] _ (by decide) hvf).2⟩

/-- C8: a buffer whose first byte is the magic byte but which holds
fewer than `8 + length` bytes (the parsed length defaulting over the
missing header bytes) yields no frame and is retained unchanged from the
magic byte onward. -/
theorem claim_C8_incomplete_frame_retained (buffer : List Nat)
    (hmagic : buffer.head? = some 0xCC)
    (hpart : buffer.length < 8 + parsedLen buffer) :
    drainLoop buffer = ([], buffer) :=
  drainLoop_stall buffer hmagic hpart

theorem claim_C8_incomplete_frame_retained_witness :
    ([0xCC, 0x40, 0, 5, 0, 0, 0, 0] : List Nat).head? = some 0xCC ∧
    ([0xCC, 0x40, 0, 5, 0, 0, 0, 0] : List Nat).length <
      8 + parsedLen [0xCC, 0x40, 0, 5, 0, 0, 0, 0] ∧
    drainLoop [0xCC, 0x40, 0, 5, 0, 0, 0, 0] =
      ([], [0xCC, 0x40, 0, 5, 0, 0, 0, 0]) :=
  ⟨by decide, by decide,
    claim_C8_incomplete_frame_retained _ (by decide) (by decide)⟩

/-- C10: a complete sensitive frame that fails checksum verification has
its `8 + length` bytes removed from the buffer front before the drop,
and every byte after it is kept, so the dropped frame is never
re-examined and no later data is lost. -/
theorem claim_C10_invalid_frame_drained (f rest : List Nat)
    (hmagic : f.head? = some 0xCC) (hlen : f.length = 8 + parsedLen f)
    (hsens : sensitiveBit f = 1)
    (hbad : verify_checksum f (parsedCk f) = false) :
    drainLoop (f ++ rest) = ([], rest) := by
  rw [drainLoop_step f rest hmagic hlen, if_pos ⟨hsens, hbad⟩]

theorem claim_C10_invalid_frame_drained_witness :
    ([0xCC, 0x40, 0, 0, 0, 0, 0, 0] : List Nat).head? = some 0xCC ∧
    ([0xCC, 0x40, 0, 0, 0, 0, 0, 0] : List Nat).length =
      8 + parsedLen [0xCC, 0x40, 0, 0, 0, 0, 0, 0] ∧
    sensitiveBit [0xCC, 0x40, 0, 0, 0, 0, 0, 0] = 1 ∧
    verify_checksum [0xCC, 0x40, 0, 0, 0, 0, 0, 0]
      (parsedCk [0xCC, 0x40, 0, 0, 0, 0, 0, 0]) = false ∧
    drainLoop ([0xCC, 0x40, 0, 0, 0, 0, 0, 0] ++ [7, 0xCC, 9]) = ([], [7, 0xCC, 9]) :=
  ⟨by decide, by decide, by decide,
    by simp [verify_checksum, checksumGo, foldCarry, parsedCk],
    claim_C10_invalid_frame_drained _ _ (by decide) (by decide) (by decide)
      (by simp [verify_checksum, checksumGo, foldCarry, parsedCk])⟩

/-- C6: a completed frame's checksum is consulted iff bit 6 of its
options byte is set — a frame with the bit clear is dispatched
unconditionally, whatever its checksum field holds, while a frame with
the bit set is dispatched or dropped exactly according to
`verify_checksum`. -/
theorem claim_C6_sensitive_bit_gates_checksum (f rest : List Nat)
    (hmagic : f.head? = some 0xCC) (hlen : f.length = 8 + parsedLen f) :
    (sensitiveBit f = 0 →
      drainLoop (f ++ rest) = (f :: (drainLoop rest).1, (drainLoop rest).2))
    ∧ (sensitiveBit f = 1 →
      drainLoop (f ++ rest) =
        if verify_checksum f (parsedCk f) then
          (f :: (drainLoop rest).1, (drainLoop rest).2)
        else ([], rest)) := by
  constructor
  · intro h0
    rw [drainLoop_step f rest hmagic hlen, if_neg]
    rintro ⟨hs, -⟩
    rw [h0] at hs
    exact absurd hs (by decide)
  · intro h1
    rw [drainLoop_step f rest hmagic hlen]
    by_cases hv : verify_checksum f (parsedCk f) = true
    · rw [if_neg (by rintro ⟨-, hfalse⟩; rw [hv] at hfalse; exact Bool.noConfusion hfalse),
        if_pos hv]
    · have hvf : verify_checksum f (parsedCk f) = false := by
        cases hb : verify_checksum f (parsedCk f)
        · rfl
        · exact absurd hb hv
      rw [if_pos ⟨h1, hvf⟩, if_neg (by simp [hvf])]

theorem claim_C6_sensitive_bit_gates_checksum_witness :
    ([0xCC, 0x40, 0, 0, 0x66, 0xF2, 0, 0] : List Nat).head? = some 0xCC ∧
    ([0xCC, 0x40, 0, 0, 0x66, 0xF2, 0, 0] : List Nat).length =
      8 + parsedLen [0xCC, 0x40, 0, 0, 0x66, 0xF2, 0, 0] ∧
    ((sensitiveBit [0xCC, 0x40, 0, 0, 0x66, 0xF2, 0, 0] = 0 →
      drainLoop ([0xCC, 0x40, 0, 0, 0x66, 0xF2, 0, 0] ++ []) =
        ([0xCC, 0x40, 0, 0, 0x66, 0xF2, 0, 0] :: (drainLoop []).1, (drainLoop []).2))
    ∧ (sensitiveBit [0xCC, 0x40, 0, 0, 0x66, 0xF2, 0, 0] = 1 →
      drainLoop ([0xCC, 0x40, 0, 0, 0x66, 0xF2, 0, 0] ++ []) =
        if verify_checksum [0xCC, 0x40, 0, 0, 0x66, 0xF2, 0, 0]
            (parsedCk [0xCC, 0x40, 0, 0, 0x66, 0xF2, 0, 0]) then
          ([0xCC, 0x40, 0, 0, 0x66, 0xF2, 0, 0] :: (drainLoop []).1, (drainLoop []).2)
        else ([], []))) :=
  ⟨by decide, by decide,
    claim_C6_sensitive_bit_gates_checksum _ [] (by decide) (by decide)⟩

/-- C2, counterexample: a buffer holding a complete sensitive frame with
a bad checksum followed by a complete valid frame. The claim predicts
the drain pass still dispatches the second frame; the code's `break` on
checksum failure ends the pass, dispatching nothing and leaving the
second frame in the buffer. -/
theorem claim_C2_counterexample :
    drainLoop ([0xCC, 0x40, 0, 0, 0, 0, 0, 0] ++ [0xCC, 0, 0, 0, 0, 0, 0, 0]) =
      ([], [0xCC, 0, 0, 0, 0, 0, 0, 0]) ∧
    (drainLoop ([0xCC, 0x40, 0, 0, 0, 0, 0, 0] ++ [0xCC, 0, 0, 0, 0, 0, 0, 0])).1 ≠
      [[0xCC, 0, 0, 0, 0, 0, 0, 0]] := by
  have h : drainLoop ([0xCC, 0x40, 0, 0, 0, 0, 0, 0] ++ [0xCC, 0, 0, 0, 0, 0, 0, 0]) =
      ([], [0xCC, 0, 0, 0, 0, 0, 0, 0]) := by
    rw [drainLoop_step _ _ (by decide) (by decide), if_pos]
    exact ⟨by decide, by simp [verify_checksum, checksumGo, foldCarry, parsedCk]⟩
  exact ⟨h, by rw [h]; decide⟩

/-- C2, amended: when a complete sensitive frame with a failing checksum
sits at the front of the buffer, the drain pass drops exactly that
frame's `8 + length` bytes and then stops (the code `break`s out of the
loop), so the following frames are dispatched not in the same pass but
by the next pass over the retained buffer. -/
theorem claim_C2_amended_drop_ends_pass (f g : List Nat)
    (hmagic : f.head? = some 0xCC) (hlen : f.length = 8 + parsedLen f)
    (hsens : sensitiveBit f = 1)
    (hbad : verify_checksum f (parsedCk f) = false) (hg : ValidFrame g) :
    drainLoop (f ++ g) = ([], g) ∧ drainLoop g = ([g], []) := by
  constructor
  · rw [drainLoop_step f g hmagic hlen, if_pos ⟨hsens, hbad⟩]
  · have h := drainLoop_emit g [] hg
    rwa [List.append_nil, drainLoop_nil] at h

theorem claim_C2_amended_drop_ends_pass_witness :
    ([0xCC, 0x40, 0, 0, 0, 0, 0, 0] : List Nat).head? = some 0xCC ∧
    ([0xCC, 0x40, 0, 0, 0, 0, 0, 0] : List Nat).length =
      8 + parsedLen [0xCC, 0x40, 0, 0, 0, 0, 0, 0] ∧
    sensitiveBit [0xCC, 0x40, 0, 0, 0, 0, 0, 0] = 1 ∧
    verify_checksum [0xCC, 0x40, 0, 0, 0, 0, 0, 0]
      (parsedCk [0xCC, 0x40, 0, 0, 0, 0, 0, 0]) = false ∧
    ValidFrame [0xCC, 0, 0, 0, 0, 0, 0, 0] ∧
    (drainLoop ([0xCC, 0x40, 0, 0, 0, 0, 0, 0] ++ [0xCC, 0, 0, 0, 0, 0, 0, 0]) =
        ([], [0xCC, 0, 0, 0, 0, 0, 0, 0]) ∧
      drainLoop [0xCC, 0, 0, 0, 0, 0, 0, 0] = ([[0xCC, 0, 0, 0, 0, 0, 0, 0]], [])) := by
  have hvf : ValidFrame [0xCC, 0, 0, 0, 0, 0, 0, 0] := by
    refine ⟨by decide, by decide, by decide, ?_⟩
    intro h
    exact absurd h (by decide)
  exact ⟨by decide, by decide, by decide,
    by simp [verify_checksum, checksumGo, foldCarry, parsedCk], hvf,
    claim_C2_amended_drop_ends_pass _ _ (by decide) (by decide) (by decide)
      (by simp [verify_checksum, checksumGo, foldCarry, parsedCk]) hvf⟩

/-- C5: two consecutive valid frames delivered across two reads, split
at any boundary, decode to the same two frames in the same order as a
single delivery, and both ways the buffer finishes empty. The first
pass runs on the bytes up to the split; the second pass runs on the
retained buffer plus the remaining bytes. -/
theorem claim_C5_split_boundary_invariance (f1 f2 : List Nat) (k : Nat)
    (h1 : ValidFrame f1) (h2 : ValidFrame f2) (hk : k ≤ (f1 ++ f2).length) :
    (drainLoop ((f1 ++ f2).take k)).1 ++
      (drainLoop ((drainLoop ((f1 ++ f2).take k)).2 ++ (f1 ++ f2).drop k)).1 =
      [f1, f2]
    ∧ (drainLoop ((drainLoop ((f1 ++ f2).take k)).2 ++ (f1 ++ f2).drop k)).2 = []
    ∧ drainLoop (f1 ++ f2) = ([f1, f2], []) := by
  have hf2single : drainLoop f2 = ([f2], []) := by
    have h := drainLoop_emit f2 [] h2
    rwa [List.append_nil, drainLoop_nil] at h
  have hf1f2 : drainLoop (f1 ++ f2) = ([f1, f2], []) := by
    rw [drainLoop_emit f1 f2 h1, hf2single]
  rw [List.length_append] at hk
  rcases Nat.lt_or_ge k f1.length with hk1 | hk1
  · -- the split lands strictly inside f1
    have htake : (f1 ++ f2).take k = f1.take k := by
      rw [List.take_append_eq_append_take,
        Nat.sub_eq_zero_of_le (Nat.le_of_lt hk1), List.take_zero, List.append_nil]
    have hdrop : (f1 ++ f2).drop k = f1.drop k ++ f2 := by
      rw [List.drop_append_eq_append_drop,
        Nat.sub_eq_zero_of_le (Nat.le_of_lt hk1), List.drop_zero]
    rcases Nat.eq_zero_or_pos k with rfl | hk0
    · rw [htake, List.take_zero, drainLoop_nil]
      simp only [List.nil_append, List.drop_zero, hf1f2]
      exact ⟨by simp, by simp, by simp⟩
    · rw [htake, drainLoop_take_stall f1 k h1.head_magic h1.len_eq hk0 hk1, hdrop]
      have hjoin : f1.take k ++ (f1.drop k ++ f2) = f1 ++ f2 := by
        rw [← List.append_assoc, List.take_append_drop]
      simp only [hjoin, hf1f2]
      exact ⟨by simp, by simp, by simp⟩
  · -- the split lands at or after the end of f1
    have htake : (f1 ++ f2).take k = f1 ++ f2.take (k - f1.length) := by
      rw [List.take_append_eq_append_take, List.take_of_length_le hk1]
    have hdrop : (f1 ++ f2).drop k = f2.drop (k - f1.length) := by
      rw [List.drop_append_eq_append_drop, List.drop_of_length_le hk1,
        List.nil_append]
    have hjle : k - f1.length ≤ f2.length := by omega
    rcases Nat.eq_zero_or_pos (k - f1.length) with hj0 | hj0
    · -- the split is exactly the boundary between f1 and f2
      rw [htake, hdrop, hj0, List.take_zero, List.append_nil, List.drop_zero]
      have hf1single : drainLoop f1 = ([f1], []) := by
        have h := drainLoop_emit f1 [] h1
        rwa [List.append_nil, drainLoop_nil] at h
      rw [hf1single]
      simp only [List.nil_append, hf2single, hf1f2]
      exact ⟨by simp, by simp, by simp⟩
    · rcases Nat.lt_or_ge (k - f1.length) f2.length with hjlt | hjge
      · -- the split lands strictly inside f2
        rw [htake, hdrop,
          drainLoop_emit f1 _ h1,
          drainLoop_take_stall f2 _ h2.head_magic h2.len_eq hj0 hjlt]
        simp only [List.take_append_drop, hf2single, hf1f2]
        exact ⟨by simp, by simp, by simp⟩
      · -- the split is at the very end: everything in the first read
        have hjeq : k - f1.length = f2.length := Nat.le_antisymm hjle hjge
        rw [htake, hdrop, hjeq, List.take_length, List.drop_length, hf1f2,
          List.append_nil, drainLoop_nil]
        exact ⟨by simp, by simp, by simp⟩

theorem claim_C5_split_boundary_invariance_witness :
    ValidFrame [0xCC, 0, 0, 1, 9, 9, 7, 7, 42] ∧
    ValidFrame [0xCC, 0, 0, 0, 0, 0, 0, 0] ∧
    8 ≤ ([0xCC, 0, 0, 1, 9, 9, 7, 7, 42] ++ [0xCC, 0, 0, 0, 0, 0, 0, 0] :
      List Nat).length ∧
    ((drainLoop (([0xCC, 0, 0, 1, 9, 9, 7, 7, 42] ++
        [0xCC, 0, 0, 0, 0, 0, 0, 0]).take 8)).1 ++
      (drainLoop ((drainLoop (([0xCC, 0, 0, 1, 9, 9, 7, 7, 42] ++
        [0xCC, 0, 0, 0, 0, 0, 0, 0]).take 8)).2 ++
        ([0xCC, 0, 0, 1, 9, 9, 7, 7, 42] ++
          [0xCC, 0, 0, 0, 0, 0, 0, 0]).drop 8)).1 =
      [[0xCC, 0, 0, 1, 9, 9, 7, 7, 42], [0xCC, 0, 0, 0, 0, 0, 0, 0]]
    ∧ (drainLoop ((drainLoop (([0xCC, 0, 0, 1, 9, 9, 7, 7, 42] ++
        [0xCC, 0, 0, 0, 0, 0, 0, 0]).take 8)).2 ++
        ([0xCC, 0, 0, 1, 9, 9, 7, 7, 42] ++
          [0xCC, 0, 0, 0, 0, 0, 0, 0]).drop 8)).2 = []
    ∧ drainLoop ([0xCC, 0, 0, 1, 9, 9, 7, 7, 42] ++ [0xCC, 0, 0, 0, 0, 0, 0, 0]) =
        ([[0xCC, 0, 0, 1, 9, 9, 7, 7, 42], [0xCC, 0, 0, 0, 0, 0, 0, 0]], [])) := by
  have hvf1 : ValidFrame [0xCC, 0, 0, 1, 9, 9, 7, 7, 42] := by
    refine ⟨by decide, by decide, by decide, ?_⟩
    intro h
    exact absurd h (by decide)
  have hvf2 : ValidFrame [0xCC, 0, 0, 0, 0, 0, 0, 0] := by
    refine ⟨by decide, by decide, by decide, ?_⟩
    intro h
    exact absurd h (by decide)
  exact ⟨hvf1, hvf2, by decide,
    claim_C5_split_boundary_invariance _ _ 8 hvf1 hvf2 (by decide)⟩

/-! ### Claim theorems: broadcast pass -/

theorem writeFailures_shift {α : Type} (fails : α → Bool) (l : List α) (i : Nat) :
    writeFailures fails l (i + 1) = (writeFailures fails l i).map (· + 1) := by
  induction l generalizing i with
  | nil => rfl
  | cons d rest IH =>
    rw [writeFailures, writeFailures]
    by_cases hd : fails d
    · rw [if_pos hd, if_pos hd, IH (i + 1), List.map_cons]
    · rw [if_neg hd, if_neg hd, IH (i + 1)]

theorem eraseFoldr_map_succ {α : Type} (d : α) (l : List α) (idxs : List Nat) :
    (idxs.map (· + 1)).foldr (fun i acc => acc.eraseIdx i) (d :: l) =
      d :: idxs.foldr (fun i acc => acc.eraseIdx i) l := by
  induction idxs with
  | nil => rfl
  | cons i is IH =>
    rw [List.map_cons, List.foldr_cons, IH, List.eraseIdx_cons_succ]
    rfl

theorem pruneFoldr_eq_filter {α : Type} (fails : α → Bool) (l : List α) :
    (writeFailures fails l 0).foldr (fun i acc => acc.eraseIdx i) l =
      l.filter (fun d => !fails d) := by
  induction l with
  | nil => rfl
  | cons d rest IH =>
    rw [writeFailures, writeFailures_shift]
    by_cases hd : fails d
    · rw [if_pos hd, List.foldr_cons, eraseFoldr_map_succ, IH,
        List.eraseIdx_cons_zero, List.filter_cons]
      simp [hd]
    · rw [if_neg hd, eraseFoldr_map_succ, IH, List.filter_cons]
      simp [hd]

/-- C9: during one broadcast pass, a write is attempted for every
registered destination in registry order — a failed write never prevents
the writes to the remaining destinations — and after the pass the
registry is exactly the original list with the failed destinations
removed, the survivors keeping their relative order (the reverse-order
index removals amount to a filter). -/
theorem claim_C9_broadcast_prunes_failures {α : Type} (fails : α → Bool)
    (list : List α) :
    (writeAttempts fails list).map Prod.fst = list
    ∧ broadcastPass fails list = list.filter (fun d => !fails d) := by
  constructor
  · induction list with
    | nil => rfl
    | cons d rest IH => rw [writeAttempts, List.map_cons, IH]
  · unfold broadcastPass
    rw [List.foldl_reverse]
    exact pruneFoldr_eq_filter fails list

/-! ### Claim theorems: driver loop and session errors -/

/-- C1, counterexample: a first source session whose read fails with an
I/O error, while a second source (which would disconnect cleanly) is
waiting. The claim predicts the driver proceeds and serves the second
session; the code's `handle_source(source_stream, &destinations)?`
propagates the error out of `main`, ending the driver loop without
serving anyone else. -/
theorem claim_C1_counterexample :
    driverRun [[ReadResult.ioError], [ReadResult.chunk []]] = Except.error ()
    ∧ (driverRun [[ReadResult.ioError], [ReadResult.chunk []]]).isOk = false := by
  constructor
  · rfl
  · rfl

/-- C1, amended: only an orderly disconnect (zero-length read) is
session-scoped — after it the driver accepts and serves the next
source — while a source read I/O error propagates out of
`handle_source` through the driver's `?` and terminates the driver loop
itself, whatever sessions were still pending. -/
theorem claim_C1_amended_read_error_fatal (rest : List (List ReadResult)) :
    driverRun ([ReadResult.ioError] :: rest) = Except.error ()
    ∧ driverRun ([ReadResult.chunk []] :: rest) =
        Except.map (fun sessions => [] :: sessions) (driverRun rest) := by
  constructor
  · rfl
  · rfl

end Wirestorm
